import Mathlib

/-!
Verification of the FIR fixed-point coefficient codec and cross-validation
pipeline (`hardware_integration.py`, `fir_verification.py`).

Text is modelled as `List Char` (the character data of a Python string).
Real-valued coefficients are modelled as `ℚ` (exact arithmetic in place of
IEEE doubles). Python exceptions are modelled with `Option`: `none` means
the operation raised.
-/

/-- The apostrophe character (code 39), used in the Verilog width marker `16'h`. -/
def apos : Char := Char.ofNat 39

/-- Uppercase hex digit for `d < 16`, as produced by Python's `X` format. -/
def toHexDigit (d : Nat) : Char :=
  "0123456789ABCDEF".toList.getD d '0'

/-- Hex-digit value of a character; Python's `int(s, 16)` accepts both
cases. Written over the numeric codes: decimal digits occupy 48-57,
uppercase hex letters 65-70, lowercase 97-102. -/
def parseHexDigit (c : Char) : Option Nat :=
  let k := c.toNat
  if 48 ≤ k ∧ k ≤ 57 then some (k - 48)
  else if 65 ≤ k ∧ k ≤ 70 then some (k - 55)
  else if 97 ≤ k ∧ k ≤ 102 then some (k - 87)
  else none

/-- Whitespace test matching the characters Python's `int` strips. -/
def isWsCh (c : Char) : Bool :=
  c == ' ' || c == Char.ofNat 9 || c == Char.ofNat 10 ||
  c == Char.ofNat 11 || c == Char.ofNat 12 || c == Char.ofNat 13

/-- Strip leading and trailing whitespace, as Python's `int(s, 16)` does. -/
def trimWs (s : List Char) : List Char :=
  ((s.dropWhile isWsCh).reverse.dropWhile isWsCh).reverse

/-- Minimal-length uppercase hex representation of a natural number
(the digit stream Python's `X` format produces before padding). -/
def hexRepr (n : Nat) : List Char :=
  if h : n < 16 then [toHexDigit n]
  else hexRepr (n / 16) ++ [toHexDigit (n % 16)]
decreasing_by exact Nat.div_lt_self (by omega) (by omega)

/-- Python's `f-string` format `04X`: uppercase hex, zero-padded to width 4. -/
def fmt04X (n : Nat) : List Char :=
  let d := hexRepr n
  List.replicate (4 - d.length) '0' ++ d

/-- Accumulating hex parse; fails on the first non-hex character. -/
def parseHexAux : List Char → Nat → Option Nat
  | [], acc => some acc
  | c :: cs, acc =>
    match parseHexDigit c with
    | none => none
    | some d => parseHexAux cs (acc * 16 + d)

/-- Python's `int(s, 16)`: strips surrounding whitespace, then requires a
nonempty run of hex digits (`none` models the raised `ValueError`).
Sign prefixes and `0x` markers never occur in the texts handled here and
are not modelled. -/
def pyIntHex (s : List Char) : Option Nat :=
  match trimWs s with
  | [] => none
  | t => parseHexAux t 0

/-- Two's-complement hex literal payload, from `update_verilog_file`
(`hardware_integration.py` lines 101-106): Python's `coeff & 0xFFFF` on a
negative int equals `coeff mod 2^16`, and nonnegative values are formatted
directly with `04X`. -/
def encodeHex16 (coeff : ℤ) : List Char :=
  fmt04X ((if coeff < 0 then coeff % 65536 else coeff).toNat)

/-- Hex payload decode from `extract_verilog_coefficients`
(`fir_verification.py` lines 60-62): parse as unsigned, subtract `2^16`
when the value is at least `2^15`. -/
def decodeHex16 (s : List Char) : Option ℤ :=
  match pyIntHex s with
  | none => none
  | some n => some (if 0x8000 ≤ n then (n : ℤ) - 0x10000 else (n : ℤ))

theorem parseHexDigit_toHexDigit : ∀ d : Nat, d < 16 →
    parseHexDigit (toHexDigit d) = some d := by decide

theorem isWsCh_toHexDigit : ∀ d : Nat, d < 16 →
    isWsCh (toHexDigit d) = false := by decide

theorem hexRepr_lt16 (u : Nat) (h : u < 16) : hexRepr u = [toHexDigit u] := by
  rw [hexRepr]; simp [h]

theorem hexRepr_lt256 (u : Nat) (h1 : 16 ≤ u) (h2 : u < 256) :
    hexRepr u = [toHexDigit (u / 16), toHexDigit (u % 16)] := by
  rw [hexRepr]
  have hn : ¬ u < 16 := by omega
  simp only [hn, dite_false]
  rw [hexRepr_lt16 (u / 16) (by omega)]
  rfl

theorem hexRepr_lt4096 (u : Nat) (h1 : 256 ≤ u) (h2 : u < 4096) :
    hexRepr u = [toHexDigit (u / 256), toHexDigit (u / 16 % 16), toHexDigit (u % 16)] := by
  rw [hexRepr]
  have hn : ¬ u < 16 := by omega
  simp only [hn, dite_false]
  rw [hexRepr_lt256 (u / 16) (by omega) (by omega)]
  have e2 : u / 16 / 16 = u / 256 := by
    rw [Nat.div_div_eq_div_mul]
  rw [e2]
  rfl

theorem hexRepr_lt65536 (u : Nat) (h1 : 4096 ≤ u) (h2 : u < 65536) :
    hexRepr u = [toHexDigit (u / 4096), toHexDigit (u / 256 % 16),
                 toHexDigit (u / 16 % 16), toHexDigit (u % 16)] := by
  rw [hexRepr]
  have hn : ¬ u < 16 := by omega
  simp only [hn, dite_false]
  rw [hexRepr_lt4096 (u / 16) (by omega) (by omega)]
  have e1 : u / 16 / 256 = u / 4096 := by
    rw [Nat.div_div_eq_div_mul]
  have e2 : u / 16 / 16 = u / 256 := by
    rw [Nat.div_div_eq_div_mul]
  rw [e1, e2]
  rfl

/-- For `u < 65536` the padded format is exactly the four base-16 digits. -/
theorem fmt04X_eq (u : Nat) (h : u < 65536) :
    fmt04X u = [toHexDigit (u / 4096 % 16), toHexDigit (u / 256 % 16),
                toHexDigit (u / 16 % 16), toHexDigit (u % 16)] := by
  by_cases c1 : u < 16
  · have d3 : u / 4096 % 16 = 0 := by omega
    have d2 : u / 256 % 16 = 0 := by omega
    have d1 : u / 16 % 16 = 0 := by omega
    have d0 : u % 16 = u := by omega
    rw [fmt04X, hexRepr_lt16 u c1, d3, d2, d1, d0]
    rfl
  · by_cases c2 : u < 256
    · have d3 : u / 4096 % 16 = 0 := by omega
      have d2 : u / 256 % 16 = 0 := by omega
      have d1 : u / 16 % 16 = u / 16 := by omega
      rw [fmt04X, hexRepr_lt256 u (by omega) c2, d3, d2, d1]
      rfl
    · by_cases c3 : u < 4096
      · have d3 : u / 4096 % 16 = 0 := by omega
        have d2 : u / 256 % 16 = u / 256 := by omega
        rw [fmt04X, hexRepr_lt4096 u (by omega) c3, d3, d2]
        rfl
      · have d3 : u / 4096 % 16 = u / 4096 := by omega
        rw [fmt04X, hexRepr_lt65536 u (by omega) h, d3]
        rfl

/-- Parsing the four-digit rendering of `u < 65536` recovers `u`. -/
theorem pyIntHex_fmt04X (u : Nat) (h : u < 65536) : pyIntHex (fmt04X u) = some u := by
  rw [fmt04X_eq u h]
  have w3 := isWsCh_toHexDigit (u / 4096 % 16) (by omega)
  have w2 := isWsCh_toHexDigit (u / 256 % 16) (by omega)
  have w1 := isWsCh_toHexDigit (u / 16 % 16) (by omega)
  have w0 := isWsCh_toHexDigit (u % 16) (by omega)
  have p3 := parseHexDigit_toHexDigit (u / 4096 % 16) (by omega)
  have p2 := parseHexDigit_toHexDigit (u / 256 % 16) (by omega)
  have p1 := parseHexDigit_toHexDigit (u / 16 % 16) (by omega)
  have p0 := parseHexDigit_toHexDigit (u % 16) (by omega)
  rw [pyIntHex]
  have ht : trimWs [toHexDigit (u / 4096 % 16), toHexDigit (u / 256 % 16),
      toHexDigit (u / 16 % 16), toHexDigit (u % 16)] =
      [toHexDigit (u / 4096 % 16), toHexDigit (u / 256 % 16),
       toHexDigit (u / 16 % 16), toHexDigit (u % 16)] := by
    simp [trimWs, List.dropWhile, w3, w2, w1, w0]
  rw [ht]
  simp only [parseHexAux, p3, p2, p1, p0]
  congr 1
  omega

/-- C1: for every raw integer in `[-32768, 32767]`, encoding as a fixed-width
two's-complement hex literal and decoding it back (parse unsigned, subtract
`2^16` when at least `2^15`) returns the original raw integer. -/
theorem C1_hex_round_trip (raw : ℤ) (h1 : -32768 ≤ raw) (h2 : raw ≤ 32767) :
    decodeHex16 (encodeHex16 raw) = some raw := by
  rw [encodeHex16]
  set u : Nat := ((if raw < 0 then raw % 65536 else raw).toNat) with hu
  have hcase : (raw < 0 ∧ (u : ℤ) = raw + 65536) ∨ (0 ≤ raw ∧ (u : ℤ) = raw) := by
    by_cases hneg : raw < 0
    · left
      refine ⟨hneg, ?_⟩
      rw [hu, if_pos hneg]
      omega
    · right
      refine ⟨by omega, ?_⟩
      rw [hu, if_neg hneg]
      omega
  have hub : u < 65536 := by
    rcases hcase with ⟨_, he⟩ | ⟨_, he⟩ <;> omega
  unfold decodeHex16
  rw [pyIntHex_fmt04X u hub]
  show some (if 0x8000 ≤ u then (u : ℤ) - 0x10000 else (u : ℤ)) = some raw
  congr 1
  rcases hcase with ⟨hneg, he⟩ | ⟨hpos, he⟩ <;> (split <;> omega)

/-- C1 witness: the spec's own example value `-5` encodes and decodes back. -/
theorem C1_hex_round_trip_witness : decodeHex16 (encodeHex16 (-5)) = some (-5) :=
  C1_hex_round_trip (-5) (by decide) (by decide)

/-- Round half to even, the rounding mode of `np.round`: ties go to the
nearest even integer. -/
def roundHalfEven (q : ℚ) : ℤ :=
  let n := ⌊q⌋
  let r := q - (n : ℚ)
  if r < 1/2 then n
  else if 1/2 < r then n + 1
  else if n % 2 = 0 then n else n + 1

/-- Fractional-bit count chosen by `quantize_coefficients`
(`hardware_integration.py` lines 15-20): `scale = 2^8` for `q8.8`,
`2^12` for `q4.12`, else `2^(bits//2)`. -/
def fracBitsOf (bits : Nat) (format : String) : Nat :=
  if format = "q8.8" then 8
  else if format = "q4.12" then 12
  else bits / 2

/-- Quantizer from `quantize_coefficients` (`hardware_integration.py` lines
11-32), over exact rationals in place of IEEE doubles. Returns
`(quantized raw ints, reconstructed floats, mean squared error)`.
`np.round` is round-half-to-even; `np.clip(v, lo, hi)` is
`min hi (max lo v)`; the `astype(np.int32)` cast is exact here because the
rounded value is an integer (int32 overflow for coefficients of magnitude
at least `2^23` is platform-defined float behavior, outside this model);
numpy elementwise array arithmetic is `zipWith`, and `np.mean` is sum over
length. -/
def quantize_coefficients (coefficients : List ℚ) (bits : Nat) (format : String) :
    List ℤ × List ℚ × ℚ :=
  let scale : ℚ := 2 ^ fracBitsOf bits format
  let scaled := coefficients.map (fun c => c * scale)
  let quantized := scaled.map roundHalfEven
  let max_val : ℤ := 2 ^ (bits - 1) - 1
  let min_val : ℤ := -(2 ^ (bits - 1))
  let clipped := quantized.map (fun v => min max_val (max min_val v))
  let float_coeffs := clipped.map (fun v : ℤ => (v : ℚ) / scale)
  let quantization_error :=
    (coefficients.zipWith (fun c r => (c - r) ^ 2) float_coeffs).sum /
      (coefficients.length : ℚ)
  (clipped, float_coeffs, quantization_error)

/-- Spec-side (claim C2 wording): clamp a raw value to
`[-2^(total_bits-1), 2^(total_bits-1)-1]`. -/
def clampRaw (bits : Nat) (v : ℤ) : ℤ :=
  max (-(2 ^ (bits - 1))) (min v (2 ^ (bits - 1) - 1))

/-- Spec-side (claim C2 wording): per-coefficient raw value
`clamp(round_half_to_even(c * 2^fractional_bits))`. -/
def specRaw (bits f : Nat) (c : ℚ) : ℤ :=
  clampRaw bits (roundHalfEven (c * 2 ^ f))

/-- Spec-side (claim C2 wording): reconstructed value `raw / 2^fractional_bits`. -/
def specRecon (bits f : Nat) (c : ℚ) : ℚ :=
  (specRaw bits f c : ℚ) / 2 ^ f

/-- C2: for every coefficient vector and every format, quantization returns
per-coefficient `clamp(round_half_to_even(c * 2^fractional_bits))` (silent
saturation), the reconstruction `raw / 2^fractional_bits`, and the mean of
`(coeffs[i] - reconstructed[i])^2`; purity holds by construction, the
result being a function of the arguments alone. -/
theorem C2_quantize_meets_spec (coeffs : List ℚ) (bits : Nat) (format : String) :
    quantize_coefficients coeffs bits format =
      (coeffs.map (specRaw bits (fracBitsOf bits format)),
       coeffs.map (specRecon bits (fracBitsOf bits format)),
       (coeffs.zipWith (fun c r => (c - r) ^ 2)
           (coeffs.map (specRecon bits (fracBitsOf bits format)))).sum /
         (coeffs.length : ℚ)) := by
  have hcl : ∀ v : ℤ,
      min (2 ^ (bits - 1) - 1) (max (-(2 ^ (bits - 1))) v) =
      max (-(2 ^ (bits - 1))) (min v (2 ^ (bits - 1) - 1)) := by
    intro v
    have h2 : (0 : ℤ) < 2 ^ (bits - 1) := pow_pos (by norm_num) _
    omega
  unfold quantize_coefficients specRecon specRaw clampRaw
  simp only [List.map_map, Function.comp]
  simp only [hcl]
  rfl

/-- Python's `in` on strings: does `pat` occur as a contiguous substring? -/
def containsSub (pat : List Char) : List Char → Bool
  | [] => pat.isPrefixOf []
  | c :: rest => pat.isPrefixOf (c :: rest) || containsSub pat rest

/-- Text after the first occurrence of `pat`; `none` when `pat` (nonempty in
all uses here) does not occur. This is `s.split(pat)[1:]` joined back. -/
def afterFirst (pat : List Char) : List Char → Option (List Char)
  | [] => none
  | c :: rest =>
    if pat.isPrefixOf (c :: rest) then some ((c :: rest).drop pat.length)
    else afterFirst pat rest

/-- Text before the first occurrence of `pat` (the whole text when `pat`
does not occur); together with `afterFirst` this models Python's
`split` fields around the first separator. -/
def beforeFirst (pat : List Char) : List Char → List Char
  | [] => []
  | c :: rest =>
    if pat.isPrefixOf (c :: rest) then []
    else c :: beforeFirst pat rest

/-- The match pattern of `update_verilog_file` (line 98): the line must
contain the substring `assign coefficients[`. -/
def asgnBracketPat : List Char := "assign coefficients[".toList

/-- The substring `16`, the second half of both loose match tests. -/
def pat16 : List Char := "16".toList

/-- The separator `16'h` used by `extract_verilog_coefficients` (line 57). -/
def pat16h : List Char := ['1', '6', apos, 'h']

/-- Loose line-match test of `update_verilog_file` (line 98):
`'assign coefficients[' in line and '16' in line`. -/
def matchesAssign (line : List Char) : Bool :=
  containsSub asgnBracketPat line && containsSub pat16 line

/-- Loose line-match test of `extract_verilog_coefficients` (line 56):
`'assign coefficients' in line and '16' in line` (no bracket). -/
def matchesExtract (line : List Char) : Bool :=
  containsSub "assign coefficients".toList line && containsSub pat16 line

/-- The replacement line built by `update_verilog_file` (line 106):
`assign coefficients[{coeff_index}] = 16'h{hex_val:04X};` plus the newline
appended on line 107. Note it is built from the running coefficient index,
not from anything on the original line. -/
def mkAssignLine (coeff_index : Nat) (coeff : ℤ) : List Char :=
  asgnBracketPat ++ (Nat.repr coeff_index).toList ++ "] = ".toList ++
    pat16h ++ encodeHex16 coeff ++ [';', '\n']

/-- The rewrite loop of `update_verilog_file` (lines 94-112): walks the
lines with a running `coeff_index`; a matched line is wholly replaced by
`mkAssignLine` while coefficients remain, and passed through otherwise.
Returns the new lines and the final `coeff_index` (the number of lines
rewritten when started at 0). -/
def updateLinesAux (qs : List ℤ) : List (List Char) → Nat → List (List Char) × Nat
  | [], idx => ([], idx)
  | l :: ls, idx =>
    if matchesAssign l then
      if idx < qs.length then
        let r := updateLinesAux qs ls (idx + 1)
        (mkAssignLine idx (qs.getD idx 0) :: r.1, r.2)
      else
        let r := updateLinesAux qs ls idx
        (l :: r.1, r.2)
    else
      let r := updateLinesAux qs ls idx
      (l :: r.1, r.2)

/-- `update_verilog_file` (`hardware_integration.py` lines 81-118) minus the
file I/O: truncate to the folded architecture's first 6 coefficients
(line 86), quantize in the default Q8.8 format (line 88), rewrite the
lines. Returns (new lines, number of lines updated, quantized values). -/
def update_verilog_file (python_coefficients : List ℚ) (lines : List (List Char)) :
    List (List Char) × Nat × List ℤ :=
  let folded_coeffs :=
    if 6 ≤ python_coefficients.length then python_coefficients.take 6
    else python_coefficients
  let quantized_coeffs := (quantize_coefficients folded_coeffs 16 "q8.8").1
  let r := updateLinesAux quantized_coeffs lines 0
  (r.1, r.2, quantized_coeffs)

/-- Per-line outcome inside `extract_verilog_coefficients` (lines 55-63):
the line contributes nothing, contributes a coefficient, or raises
(`int(hex_val, 16)` on a malformed payload). -/
inductive LineRes where
  | seSkip : LineRes
  | seVal : ℚ → LineRes
  | seErr : LineRes
deriving DecidableEq

/-- One iteration of the extraction loop (`fir_verification.py` lines
56-63): on a matched line, split on `16'h`; when the separator occurs, the
next 4 characters of the following field are parsed as hex (a failed parse
raises `ValueError`, modelled as `seErr`), sign-adjusted, and divided by
256.0. -/
def extractLineRes (line : List Char) : LineRes :=
  if matchesExtract line then
    match afterFirst pat16h line with
    | none => .seSkip
    | some rest =>
      let hex_val := (beforeFirst pat16h rest).take 4
      match pyIntHex hex_val with
      | none => .seErr
      | some n =>
        .seVal (((if 0x8000 ≤ n then (n : ℤ) - 0x10000 else (n : ℤ)) : ℚ) / 256)
  else .seSkip

/-- `extract_verilog_coefficients` over the file's lines: `none` models the
uncaught `ValueError` on a malformed hex payload (the function's
`try` only catches `FileNotFoundError`). -/
def extract_verilog_coefficients : List (List Char) → Option (List ℚ)
  | [] => some []
  | l :: ls =>
    match extractLineRes l with
    | .seSkip => extract_verilog_coefficients ls
    | .seErr => none
    | .seVal q => (extract_verilog_coefficients ls).map (fun t => q :: t)

/-- Number of lines among the first `i` that pass the loose match test. -/
def matchedBefore : List (List Char) → Nat → Nat
  | [], _ => 0
  | _ :: _, 0 => 0
  | l :: ls, i + 1 => (if matchesAssign l then 1 else 0) + matchedBefore ls i

/-- Total number of lines passing the loose match test. -/
def cMatch : List (List Char) → Nat
  | [] => 0
  | l :: ls => (if matchesAssign l then 1 else 0) + cMatch ls

theorem updateLinesAux_length (qs : List ℤ) :
    ∀ (lines : List (List Char)) (idx : Nat),
      (updateLinesAux qs lines idx).1.length = lines.length := by
  intro lines
  induction lines with
  | nil => intro idx; rfl
  | cons l ls ih =>
    intro idx
    rw [updateLinesAux]
    by_cases hm : matchesAssign l
    · rw [if_pos hm]
      by_cases hq : idx < qs.length
      · rw [if_pos hq]
        simp [ih]
      · rw [if_neg hq]
        simp [ih]
    · rw [if_neg hm]
      simp [ih]

theorem updateLinesAux_snd (qs : List ℤ) :
    ∀ (lines : List (List Char)) (idx : Nat),
      (updateLinesAux qs lines idx).2 = min (idx + cMatch lines) (max idx qs.length) := by
  intro lines
  induction lines with
  | nil =>
    intro idx
    rw [updateLinesAux, cMatch]
    omega
  | cons l ls ih =>
    intro idx
    rw [updateLinesAux, cMatch]
    by_cases hm : matchesAssign l
    · rw [if_pos hm]
      by_cases hq : idx < qs.length
      · rw [if_pos hq]
        have := ih (idx + 1)
        simp only [hm, if_true]
        omega
      · rw [if_neg hq]
        have := ih idx
        simp only [hm, if_true]
        omega
    · rw [if_neg hm]
      have := ih idx
      simp only [hm, Bool.false_eq_true, if_false]
      omega

/-- Closed form for each output line of the rewrite loop: a line is wholly
replaced by a freshly built assignment line exactly when it matches and
coefficients remain for it; every other line passes through unchanged. -/
theorem updateLinesAux_getD (qs : List ℤ) :
    ∀ (lines : List (List Char)) (idx i : Nat), i < lines.length →
      ((updateLinesAux qs lines idx).1.getD i []) =
        (if matchesAssign (lines.getD i []) = true ∧
            idx + matchedBefore lines i < qs.length
         then mkAssignLine (idx + matchedBefore lines i)
                (qs.getD (idx + matchedBefore lines i) 0)
         else lines.getD i []) := by
  intro lines
  induction lines with
  | nil =>
    intro idx i hi
    exact absurd hi (by simp)
  | cons l ls ih =>
    intro idx i hi
    rw [updateLinesAux]
    match i with
    | 0 =>
      simp only [matchedBefore, List.getD_cons_zero, Nat.add_zero]
      by_cases hm : matchesAssign l
      · rw [if_pos hm]
        by_cases hq : idx < qs.length
        · rw [if_pos hq, if_pos ⟨hm, hq⟩]
          rfl
        · rw [if_neg hq, if_neg (by tauto)]
          rfl
      · rw [if_neg hm, if_neg (by tauto)]
        rfl
    | Nat.succ j =>
      have hj : j < ls.length := by
        simpa using hi
      simp only [matchedBefore, List.getD_cons_succ]
      by_cases hm : matchesAssign l
      · rw [if_pos hm]
        simp only [hm, if_true]
        by_cases hq : idx < qs.length
        · rw [if_pos hq]
          have := ih (idx + 1) j hj
          simp only [List.getD_cons_succ]
          rw [this]
          have harith : idx + 1 + matchedBefore ls j = idx + (1 + matchedBefore ls j) := by
            omega
          rw [harith]
        · rw [if_neg hq]
          have := ih idx j hj
          simp only [List.getD_cons_succ]
          rw [this]
          rw [if_neg (by omega), if_neg (by omega)]
      · rw [if_neg hm]
        have := ih idx j hj
        simp only [List.getD_cons_succ]
        rw [this]
        simp [hm]

/-- C3: the rewrite keeps the line count, leaves every non-matching line
byte-identical, and when the coefficient list has fewer entries than there
are matched lines, the remaining matched lines (those with at least
`qs.length` matched lines before them) are also left unmodified. -/
theorem C3_rewrite_passthrough (qs : List ℤ) (lines : List (List Char)) (i : Nat)
    (hi : i < lines.length) :
    (updateLinesAux qs lines 0).1.length = lines.length ∧
    (matchesAssign (lines.getD i []) = false →
      (updateLinesAux qs lines 0).1.getD i [] = lines.getD i []) ∧
    (matchesAssign (lines.getD i []) = true → qs.length ≤ matchedBefore lines i →
      (updateLinesAux qs lines 0).1.getD i [] = lines.getD i []) := by
  refine ⟨updateLinesAux_length qs lines 0, ?_, ?_⟩
  · intro hm
    have hcond : ¬ (matchesAssign (lines.getD i []) = true ∧
        0 + matchedBefore lines i < qs.length) := by
      rintro ⟨h1, _⟩
      rw [hm] at h1
      exact Bool.noConfusion h1
    rw [updateLinesAux_getD qs lines 0 i hi, if_neg hcond]
  · intro hm hle
    have hcond : ¬ (matchesAssign (lines.getD i []) = true ∧
        0 + matchedBefore lines i < qs.length) := by
      rintro ⟨_, h2⟩
      omega
    rw [updateLinesAux_getD qs lines 0 i hi, if_neg hcond]

/-- C3 witness: a non-matching line passes through byte-identically. -/
theorem C3_rewrite_passthrough_witness :
    (updateLinesAux ([] : List ℤ) ["xy".toList] 0).1.getD 0 [] = "xy".toList :=
  (C3_rewrite_passthrough [] ["xy".toList] 0 (by decide)).2.1 (by decide)

/-- A matched line with leading whitespace, its own index `3`, and a
trailing comment: concrete input refuting the payload-only-replacement
reading of the rewrite. -/
def cexLine : List Char :=
  "  assign coefficients[3] = ".toList ++ pat16h ++ "0007; // keep".toList ++ ['\n']

/-- Spec-side (claim C4 wording): replace only the hex payload after the
first `16'h` marker, leaving everything else on the line unchanged. -/
def replaceHexPayload (line : List Char) (coeff : ℤ) : List Char :=
  match afterFirst pat16h line with
  | none => line
  | some rest => beforeFirst pat16h line ++ pat16h ++ encodeHex16 coeff ++ rest.drop 4

/-- C4 counterexample: on a matched line carrying index `3`, leading
whitespace and a comment, the rewrite does update the line (count 1) but
produces a wholly rebuilt line, not the line with only its hex payload
replaced: the claim's predicted output differs from the code's. -/
theorem C4_counterexample :
    (updateLinesAux [5] [cexLine] 0).2 = 1 ∧
    (updateLinesAux [5] [cexLine] 0).1.getD 0 [] ≠ replaceHexPayload cexLine 5 := by
  constructor
  · decide
  · decide

/-- C4 amended: the rewrite updates exactly `min(matched_lines, len(qs))`
lines, and each updated line (the i-th line when it matches and fewer than
`len(qs)` matched lines precede it) is wholly replaced by a freshly built
`assign coefficients[j] = 16'h....;` line using the running coefficient
index `j`, discarding the original line's own index, surrounding text and
formatting; all other lines pass through unchanged. -/
theorem C4_rewrite_count_and_shape (qs : List ℤ) (lines : List (List Char)) :
    (updateLinesAux qs lines 0).2 = min (cMatch lines) qs.length ∧
    ∀ i : Nat, i < lines.length →
      (updateLinesAux qs lines 0).1.getD i [] =
        (if matchesAssign (lines.getD i []) = true ∧
            matchedBefore lines i < qs.length
         then mkAssignLine (matchedBefore lines i)
                (qs.getD (matchedBefore lines i) 0)
         else lines.getD i []) := by
  constructor
  · have := updateLinesAux_snd qs lines 0
    omega
  · intro i hi
    have := updateLinesAux_getD qs lines 0 i hi
    simpa using this

/-- C4 amended witness: the concrete matched line is replaced by the
freshly built line for running index 0. -/
theorem C4_rewrite_count_and_shape_witness :
    (updateLinesAux [3] [cexLine] 0).1.getD 0 [] =
      (if matchesAssign (([cexLine] : List (List Char)).getD 0 []) = true ∧
          matchedBefore [cexLine] 0 < ([3] : List ℤ).length
       then mkAssignLine (matchedBefore [cexLine] 0)
              (([3] : List ℤ).getD (matchedBefore [cexLine] 0) 0)
       else ([cexLine] : List (List Char)).getD 0 []) :=
  (C4_rewrite_count_and_shape [3] [cexLine]).2 0 (by decide)

theorem quantize_length (c : List ℚ) (bits : Nat) (format : String) :
    (quantize_coefficients c bits format).1.length = c.length := by
  simp [quantize_coefficients]

theorem folded_take6 (coeffs : List ℚ) :
    (if 6 ≤ coeffs.length then coeffs.take 6 else coeffs) = coeffs.take 6 := by
  by_cases h6 : 6 ≤ coeffs.length
  · rw [if_pos h6]
  · rw [if_neg h6]
    exact (List.take_of_length_le (by omega)).symm

/-- C10: `update_verilog_file` quantizes and writes only the first 6
coefficients — supplying more changes nothing — and at most 6 lines are
ever rewritten, however many lines match. -/
theorem C10_first_six_only (coeffs : List ℚ) (lines : List (List Char)) :
    update_verilog_file coeffs lines = update_verilog_file (coeffs.take 6) lines ∧
    (update_verilog_file coeffs lines).2.1 ≤ 6 := by
  constructor
  · unfold update_verilog_file
    rw [folded_take6 coeffs, folded_take6 (coeffs.take 6), List.take_take,
      Nat.min_self]
  · show (updateLinesAux
        ((quantize_coefficients
          (if 6 ≤ coeffs.length then coeffs.take 6 else coeffs) 16 "q8.8").1)
        lines 0).2 ≤ 6
    rw [folded_take6 coeffs, updateLinesAux_snd]
    have hlen := quantize_length (coeffs.take 6) 16 "q8.8"
    have htk : (coeffs.take 6).length ≤ 6 := by
      rw [List.length_take]
      omega
    omega

/-- `create_symmetric_coeffs` (`fir_verification.py` lines 238-245): builds
the 11-tap symmetric vector from indices `0..5` of the input. Python
raises `IndexError` when the input has fewer than 6 entries, modelled as
`none`; entries beyond the first 6 are never read. -/
def create_symmetric_coeffs (half_coeffs : List ℚ) : Option (List ℚ) :=
  if 5 < half_coeffs.length then
    some [half_coeffs.getD 0 0, half_coeffs.getD 1 0, half_coeffs.getD 2 0,
          half_coeffs.getD 3 0, half_coeffs.getD 4 0, half_coeffs.getD 5 0,
          half_coeffs.getD 4 0, half_coeffs.getD 3 0, half_coeffs.getD 2 0,
          half_coeffs.getD 1 0, half_coeffs.getD 0 0]
  else none

/-- Spec-side (claim C5 wording): `unfold` of a half vector of length `K`
returns `half[0..K] ++ reverse(half[0..K-1])`. -/
def unfoldSpec (half : List ℚ) : List ℚ :=
  half ++ (half.take (half.length - 1)).reverse

/-- C5 counterexample: for the singleton half vector `[1]` (`K = 1`), the
claim predicts the singleton back, but the code indexes `half_coeffs[1]`
through `half_coeffs[5]` and raises `IndexError`. -/
theorem C5_counterexample :
    create_symmetric_coeffs [(1 : ℚ)] = none ∧
    create_symmetric_coeffs [(1 : ℚ)] ≠ some (unfoldSpec [(1 : ℚ)]) := by
  constructor
  · decide
  · decide

/-- C5 amended: for every half vector of length at least 6, unfold returns
the first 6 elements followed by the reverse of the first 5, a symmetric
vector of length 11; shorter vectors raise `IndexError` and elements past
the sixth are ignored. -/
theorem C5_unfold_amended (h : List ℚ) (hlen : 6 ≤ h.length) :
    create_symmetric_coeffs h = some (h.take 6 ++ (h.take 5).reverse) ∧
    (h.take 6 ++ (h.take 5).reverse).length = 11 := by
  rcases h with _ | ⟨a, h⟩
  · simp at hlen
  rcases h with _ | ⟨b, h⟩
  · simp at hlen
  rcases h with _ | ⟨c, h⟩
  · simp at hlen
  rcases h with _ | ⟨d, h⟩
  · simp at hlen
  rcases h with _ | ⟨e, h⟩
  · simp at hlen
  rcases h with _ | ⟨f, h⟩
  · simp at hlen
  constructor
  · rw [create_symmetric_coeffs,
      if_pos (by simp only [List.length_cons]; omega)]
    simp [List.getD]
  · simp

/-- C5 amended witness: the six-element half vector `[1,2,3,4,5,6]`. -/
theorem C5_unfold_amended_witness :
    create_symmetric_coeffs [(1 : ℚ), 2, 3, 4, 5, 6] =
      some (([(1 : ℚ), 2, 3, 4, 5, 6]).take 6 ++
        (([(1 : ℚ), 2, 3, 4, 5, 6]).take 5).reverse) ∧
    ((([(1 : ℚ), 2, 3, 4, 5, 6]).take 6 ++
        (([(1 : ℚ), 2, 3, 4, 5, 6]).take 5).reverse)).length = 11 :=
  C5_unfold_amended [(1 : ℚ), 2, 3, 4, 5, 6] (by decide)

/-- Modelled from the spec: the SymmetricFolder's `fold` has no body in the
sources (only its collaborators `create_symmetric_coeffs` and the `[:6]`
truncation in `update_verilog_file` appear); per spec section 4.2 it
returns the first `K = (N+1)/2` elements of the full vector. -/
def fold (full : List ℚ) : List ℚ :=
  full.take ((full.length + 1) / 2)

/-- C9 counterexample: for the half vector `[1]` (`K = 1`) the round trip
fails — `unfold` raises `IndexError` instead of producing a vector to
fold back. -/
theorem C9_counterexample :
    (create_symmetric_coeffs [(1 : ℚ)]).map fold ≠ some [(1 : ℚ)] := by
  decide

/-- C9 amended: the fold/unfold round trip holds for half vectors of length
exactly 6, the folded size fixed by the code: folding the 11-tap unfolded
vector returns the original half vector. -/
theorem C9_fold_unfold (h : List ℚ) (hlen : h.length = 6) :
    (create_symmetric_coeffs h).map fold = some h := by
  rcases h with _ | ⟨a, h⟩
  · simp at hlen
  rcases h with _ | ⟨b, h⟩
  · simp at hlen
  rcases h with _ | ⟨c, h⟩
  · simp at hlen
  rcases h with _ | ⟨d, h⟩
  · simp at hlen
  rcases h with _ | ⟨e, h⟩
  · simp at hlen
  rcases h with _ | ⟨f, h⟩
  · simp at hlen
  rcases h with _ | ⟨x, h⟩
  · simp [create_symmetric_coeffs, fold, List.getD]
  · simp at hlen

/-- C9 amended witness: the half vector `[1,2,3,4,5,6]` round trips. -/
theorem C9_fold_unfold_witness :
    (create_symmetric_coeffs [(1 : ℚ), 2, 3, 4, 5, 6]).map fold =
      some [(1 : ℚ), 2, 3, 4, 5, 6] :=
  C9_fold_unfold [(1 : ℚ), 2, 3, 4, 5, 6] (by decide)

theorem extract_cons (l : List Char) (ls : List (List Char)) :
    extract_verilog_coefficients (l :: ls) =
      (match extractLineRes l with
       | .seSkip => extract_verilog_coefficients ls
       | .seErr => none
       | .seVal q => (extract_verilog_coefficients ls).map (fun t => q :: t)) := rfl

/-- A matched line whose hex payload `ZZZZ` is not hexadecimal. -/
def cexBadHexLine : List Char :=
  "assign coefficients[0] = ".toList ++ pat16h ++ "ZZZZ;".toList

/-- C6 counterexample: on a matched line whose payload fails to parse,
extraction raises `ValueError` (modelled `none`) instead of passing the
line through as non-matching (which would give `some []`). -/
theorem C6_counterexample :
    extract_verilog_coefficients [cexBadHexLine] = none ∧
    extract_verilog_coefficients [cexBadHexLine] ≠ some [] := by
  constructor
  · decide
  · decide

/-- C6 amended: a non-matching line, or a matched line with no `16'h`
separator at all, is skipped without error; but a matched line whose
4-character payload after the first `16'h` fails to parse as hexadecimal
aborts the whole extraction with an uncaught error. -/
theorem C6_extract_error_handling (line : List Char) (rest : List (List Char)) :
    (matchesExtract line = true → afterFirst pat16h line = none →
      extract_verilog_coefficients (line :: rest) =
        extract_verilog_coefficients rest) ∧
    (matchesExtract line = false →
      extract_verilog_coefficients (line :: rest) =
        extract_verilog_coefficients rest) ∧
    (∀ s, matchesExtract line = true → afterFirst pat16h line = some s →
      pyIntHex ((beforeFirst pat16h s).take 4) = none →
      extract_verilog_coefficients (line :: rest) = none) := by
  refine ⟨?_, ?_, ?_⟩
  · intro hm hn
    have hres : extractLineRes line = .seSkip := by
      rw [extractLineRes, if_pos hm, hn]
    rw [extract_cons, hres]
  · intro hm
    have hres : extractLineRes line = .seSkip := by
      rw [extractLineRes, if_neg (by rw [hm]; exact Bool.noConfusion)]
    rw [extract_cons, hres]
  · intro s hm hs hp
    have hres : extractLineRes line = .seErr := by
      rw [extractLineRes, if_pos hm, hs]
      simp only [hp]
    rw [extract_cons, hres]

/-- A line matching the loose substring test but containing no `16'h`. -/
def cexNoSepLine : List Char := "assign coefficients = x16;".toList

/-- C6 amended witness: the separator-free matched line is skipped and the
extraction of the one-line text succeeds as on the empty text. -/
theorem C6_extract_error_handling_witness :
    extract_verilog_coefficients [cexNoSepLine] =
      extract_verilog_coefficients [] :=
  (C6_extract_error_handling cexNoSepLine []).1 (by decide) (by decide)

/-- Stage-1 compensation (`fir_verification.py` line 193): `1.0 / sum(coeffs)`. -/
def stage1_compensation (coeffs : List ℚ) : ℚ := 1 / coeffs.sum

/-- The hard-coded empirically observed post-quantization gain
(`fir_verification.py` line 197): `0.609375 = 39/64`. -/
def current_gain_after_fixed_point : ℚ := 39 / 64

/-- Stage-2 compensation as the code computes it (line 198): the
reciprocal of the hard-coded constant, independent of the input. -/
def stage2_compensation : ℚ := 1 / current_gain_after_fixed_point

/-- Total compensation (line 200). -/
def total_compensation (coeffs : List ℚ) : ℚ :=
  stage1_compensation coeffs * stage2_compensation

/-- Spec-side (claim C7 wording): the DC gain actually achieved after
quantizing `coeffs * stage1` in Q8.8 — the sum of the reconstructed
quantized values. -/
def achievedGain (coeffs : List ℚ) : ℚ :=
  ((quantize_coefficients (coeffs.map (fun c => c * stage1_compensation coeffs))
      16 "q8.8").2.1).sum

/-- Spec-side (claim C7 wording): stage 2 computed from the input by
measuring the achieved gain. -/
def specStage2 (coeffs : List ℚ) : ℚ := 1 / achievedGain coeffs

theorem roundHalfEven_intCast (n : ℤ) : roundHalfEven ((n : ℤ) : ℚ) = n := by
  rw [roundHalfEven]
  simp only [Int.floor_intCast, sub_self]
  norm_num

theorem stage1_one : stage1_compensation [(1 : ℚ)] = 1 := by
  simp [stage1_compensation]

theorem quantize_one :
    quantize_coefficients [(1 : ℚ)] 16 "q8.8" = ([256], [1], 0) := by
  have hf : fracBitsOf 16 "q8.8" = 8 := rfl
  have hr : roundHalfEven ((1 : ℚ) * 2 ^ 8) = 256 := by
    have h1 : ((1 : ℚ) * 2 ^ 8) = (((256 : ℤ) : ℚ)) := by norm_num
    rw [h1, roundHalfEven_intCast]
  have hclip : min ((2 : ℤ) ^ (16 - 1) - 1) (max (-(2 ^ (16 - 1))) 256) = 256 := by
    norm_num
  unfold quantize_coefficients
  rw [hf]
  simp only [List.map_cons, List.map_nil, hr, hclip, List.zipWith_cons_cons,
    List.zipWith_nil_right, List.sum_cons, List.sum_nil, List.length_cons,
    List.length_nil]
  norm_num

theorem achievedGain_one : achievedGain [(1 : ℚ)] = 1 := by
  rw [achievedGain]
  have hmap : ([(1 : ℚ)]).map (fun c => c * stage1_compensation [(1 : ℚ)]) =
      [(1 : ℚ)] := by
    simp [stage1_one]
  rw [hmap, quantize_one]
  norm_num

/-- C7 counterexample: for the input `[1]` the achieved quantized gain is
exactly 1, so a measured stage 2 would be 1; the code's stage 2 is the
fixed `64/39` and its returned scale differs from the claim's
`stage1 * (1/g_achieved)`. -/
theorem C7_counterexample :
    specStage2 [(1 : ℚ)] = 1 ∧
    stage2_compensation ≠ specStage2 [(1 : ℚ)] ∧
    total_compensation [(1 : ℚ)] ≠
      stage1_compensation [(1 : ℚ)] * specStage2 [(1 : ℚ)] := by
  have h1 : specStage2 [(1 : ℚ)] = 1 := by
    rw [specStage2, achievedGain_one]
    norm_num
  refine ⟨h1, ?_, ?_⟩
  · rw [h1, stage2_compensation, current_gain_after_fixed_point]
    norm_num
  · rw [h1, total_compensation, stage1_one, stage2_compensation,
      current_gain_after_fixed_point]
    norm_num

/-- C7 amended: the gain-compensation scale is computed with a fixed
stage-2 constant `1 / 0.609375` taken from one empirically observed run —
`scale = (1 / sum(coeffs)) * (64/39)` for every input — rather than by
quantizing under stage 1 and measuring the achieved gain. -/
theorem C7_stage2_is_constant (coeffs : List ℚ) :
    stage2_compensation = 64 / 39 ∧
    total_compensation coeffs = (1 / coeffs.sum) * (64 / 39) := by
  constructor
  · rw [stage2_compensation, current_gain_after_fixed_point]
    norm_num
  · rw [total_compensation, stage1_compensation, stage2_compensation,
      current_gain_after_fixed_point]
    norm_num

/-- Classification verdict of `compare_filter_performance` (lines 146-152). -/
inductive Assessment where
  | passA : Assessment
  | goodA : Assessment
  | checkA : Assessment
deriving DecidableEq

/-- Error metric of `compare_filter_performance` (line 141) over given
response-magnitude samples (the upstream `freqz` magnitudes are
floating-point trigonometry, taken as this comparison's input):
`np.max(np.abs(a - b))`, elementwise. The fold base 0 agrees with
`np.max` on every nonempty list of absolute values. -/
def max_error (h_matlab h_verilog : List ℚ) : ℚ :=
  (h_matlab.zipWith (fun a b => |a - b|) h_verilog).foldl max 0

/-- The verdict thresholds (lines 147-152): `< 0.01` pass, `< 0.1` good,
else check. -/
def assessImplementation (max_err : ℚ) : Assessment :=
  if max_err < 1/100 then .passA
  else if max_err < 1/10 then .goodA
  else .checkA

/-- The classification part of `compare_filter_performance`
(`fir_verification.py` lines 139-152). -/
def compare_filter_performance (h_matlab h_verilog : List ℚ) : Assessment :=
  assessImplementation (max_error h_matlab h_verilog)

/-- C8: the classification is Pass exactly below `0.01`, Good from `0.01`
up to `0.1`, and Check from `0.1`; in particular max errors `0.005`,
`0.05` and `0.5` (realised by concrete magnitude pairs) classify Pass,
Good and Check. -/
theorem C8_classification (h_matlab h_verilog : List ℚ) :
    (max_error h_matlab h_verilog < 1/100 →
      compare_filter_performance h_matlab h_verilog = .passA) ∧
    (1/100 ≤ max_error h_matlab h_verilog →
      max_error h_matlab h_verilog < 1/10 →
      compare_filter_performance h_matlab h_verilog = .goodA) ∧
    (1/10 ≤ max_error h_matlab h_verilog →
      compare_filter_performance h_matlab h_verilog = .checkA) ∧
    compare_filter_performance [(1 : ℚ)] [199/200] = .passA ∧
    compare_filter_performance [(1 : ℚ)] [19/20] = .goodA ∧
    compare_filter_performance [(1 : ℚ)] [1/2] = .checkA := by
  have hme : ∀ a b : ℚ, 0 ≤ a - b → max_error [a] [b] = a - b := by
    intro a b h
    rw [max_error]
    simp [abs_of_nonneg h, max_eq_right h]
  have h005 : max_error [(1 : ℚ)] [199/200] = 1/200 := by
    rw [hme 1 (199/200) (by norm_num)]
    norm_num
  have h05 : max_error [(1 : ℚ)] [19/20] = 1/20 := by
    rw [hme 1 (19/20) (by norm_num)]
    norm_num
  have h5 : max_error [(1 : ℚ)] [1/2] = 1/2 := by
    rw [hme 1 (1/2) (by norm_num)]
    norm_num
  refine ⟨?_, ?_, ?_, ?_, ?_, ?_⟩
  · intro h
    rw [compare_filter_performance, assessImplementation, if_pos h]
  · intro h1 h2
    rw [compare_filter_performance, assessImplementation,
      if_neg (not_lt.2 h1), if_pos h2]
  · intro h
    rw [compare_filter_performance, assessImplementation,
      if_neg (by linarith), if_neg (not_lt.2 h)]
  · rw [compare_filter_performance, h005, assessImplementation,
      if_pos (by norm_num)]
  · rw [compare_filter_performance, h05, assessImplementation,
      if_neg (by norm_num), if_pos (by norm_num)]
  · rw [compare_filter_performance, h5, assessImplementation,
      if_neg (by norm_num), if_neg (by norm_num)]

theorem max_error_pair (a b : ℚ) (h : 0 ≤ a - b) : max_error [a] [b] = a - b := by
  rw [max_error]
  simp [abs_of_nonneg h, max_eq_right h]

/-- C8 witness: the pair with max error `0.005` classifies Pass through the
threshold clause. -/
theorem C8_classification_witness :
    compare_filter_performance [(1 : ℚ)] [199/200] = .passA :=
  (C8_classification [(1 : ℚ)] [199/200]).1
    (by rw [max_error_pair 1 (199/200) (by norm_num)]; norm_num)
